import Mathlib

/-!
Shallow embedding of `idlemerge.py` (IdleMerge, an automatic Subversion
branch merger) for checking its natural-language specification.

Conventions used throughout:
* Python strings are modelled as `String`, or as `List Char` where we
  need to reason character by character (`add_email_domain`, the
  `re.split` call of `Revision._get_msg`, the regex of
  `get_source_sub_path`).
* Python sets of `Revision` objects are modelled as `Finset Nat`:
  `Revision.__hash__` and `Revision.__cmp__` identify a revision with
  its number, so a Python set of revisions is exactly a finite set of
  revision numbers.
* The svn child processes driving `merge_one_by_one_concise` are
  modelled by an oracle `Nat → Outcome` giving, for each successive
  replay of a revision, the classification of the working copy that the
  code branches on, together with the exit code of the commit that
  immediately follows a real-content status.
-/

namespace IdleMerge

/-! ### `add_email_domain` (idlemerge.py lines 870-884)

```
def add_email_domain(email, domain):
    if not domain:
        return email
    if '@' in email:
        return email
    at_domain = domain if domain.startswith('@') else '@' + domain
    if email.endswith(at_domain):
        return email
    if email.endswith(at_domain + '>'):
        return email
    return email + at_domain
```
Strings are `List Char`; `'@' in email` for the one-character pattern is
character membership, `startswith`/`endswith` are list prefix/suffix. -/

/-- The local variable `at_domain` of `add_email_domain`:
`domain if domain.startswith('@') else '@' + domain`. -/
def at_domain (domain : List Char) : List Char :=
  if domain.head? = some '@' then domain else '@' :: domain

/-- `add_email_domain(email, domain)` from idlemerge.py lines 870-884. -/
def add_email_domain (email domain : List Char) : List Char :=
  if domain = [] then email
  else if '@' ∈ email then email
  else if (at_domain domain).isSuffixOf email then email
  else if ((at_domain domain) ++ ['>']).isSuffixOf email then email
  else email ++ at_domain domain

/-! ### `Revision._get_msg` (idlemerge.py lines 501-512)

```
match = re.split(r'(^|\n)-- IDLEMERGE DATA --\n', full_msg, 1)
self._msg = match[0]
self._idle_data = match[1] if len(match) > 1 else ''
```
Without `re.MULTILINE`, `^` only matches at the start of the string, so
the pattern matches the literal line `-- IDLEMERGE DATA --` either at
position 0 or right after a `'\n'`.  Because the pattern has a capturing
group, `re.split` returns `[before, captured_group, after]` on a match
(`captured_group` is `''` for the start-of-string alternative and
`'\n'` otherwise), and `[full_msg]` when there is no match. -/

/-- The split token: the marker line followed by its terminating newline,
`-- IDLEMERGE DATA --\n`. -/
def idleMarkerNL : List Char := "-- IDLEMERGE DATA --\n".toList

/-- Scanning part of the `re.split` model: looks for the first `'\n'`
followed by the marker line, accumulating the characters already passed
(in reverse) in `acc`. -/
def reSplitIdleGo (acc : List Char) : List Char → List (List Char)
  | [] => [acc.reverse]
  | c :: rest =>
    if c = '\n' ∧ idleMarkerNL.isPrefixOf rest then
      [acc.reverse, ['\n'], rest.drop idleMarkerNL.length]
    else reSplitIdleGo (c :: acc) rest

/-- Model of `re.split(r'(^|\n)-- IDLEMERGE DATA --\n', full_msg, 1)`.
The result list includes the text captured by the group `(^|\n)`,
exactly as Python's `re.split` does for patterns with capturing
groups. -/
def reSplitIdle (s : List Char) : List (List Char) :=
  if idleMarkerNL.isPrefixOf s then [[], [], s.drop idleMarkerNL.length]
  else reSplitIdleGo [] s

/-- `Revision._get_msg`: returns the pair `(msg, idle_data)` the method
stores, i.e. `(match[0], match[1] if len(match) > 1 else '')`. -/
def get_msg (full : List Char) : List Char × List Char :=
  let m := reSplitIdle full
  (m.getD 0 [], if 1 < m.length then m.getD 1 [] else [])

/-- `Revision.msg` computed from the full log message. -/
def Revision_msg (full : String) : String :=
  String.mk (get_msg full.toList).1

/-- `Revision.idle_data` computed from the full log message. -/
def Revision_idle_data (full : String) : String :=
  String.mk (get_msg full.toList).2

/-! ### Status entries (idlemerge.py lines 565-725)

`StatusEntry` keeps the attributes the orchestrator branches on.  The
`item` attribute is kept as a string, exactly as in the code (whose own
docstring at lines 602-609 lists `'unversionned'` among its values). -/

/-- One `<entry>` of `svn status --xml` as wrapped by `StatusEntry`. -/
structure StatusEntry where
  path : String
  item : String
  props : String
  treeConflicted : Bool
deriving DecidableEq

/-- `StatusEntry.is_unversionned` (lines 646-648):
`return self.item == 'unversionned'`. -/
def StatusEntry.is_unversionned (e : StatusEntry) : Bool :=
  e.item == "unversionned"

/-- `Status.unversionned` (lines 721-725):
`[entry for entry in self.entries if not entry.is_unversionned]`.
Note the `not`: the list comprehension keeps the entries that are NOT
unversioned. -/
def status_unversionned (entries : List StatusEntry) : List StatusEntry :=
  entries.filter (fun e => !e.is_unversionned)

/-- Observable outcome of the tail of `IdleMerge.revert_pristine`:
which paths get removed from disk and whether `Error('Failed to reset
workspace !')` is raised. -/
structure PristineResult where
  deleted : List String
  raised : Bool
deriving DecidableEq

/-- `IdleMerge.revert_pristine` (lines 1064-1080) after the recursive
revert and the first update, given the parsed status and the exit code
of the second `svn update`:

```
status = self.svn_status()
if not status.unversionned:
    return
for entry in status.unversionned:
    path = entry.path
    if os.path.isdir(path) and not os.path.islink(path):
        shutil.rmtree(path)
    else:
        os.remove(path)
if self.svn_update() == 0:
    raise Error('Failed to reset workspace !')
```
`svn_update` returns the exit code of `svn update`, so the raise fires
exactly when the second update exits with code 0. -/
def revert_pristine (entries : List StatusEntry) (second_update_code : Nat) :
    PristineResult :=
  let unv := status_unversionned entries
  if unv.isEmpty then ⟨[], false⟩
  else ⟨unv.map (fun e => e.path), second_update_code == 0⟩

/-! ### `get_source_sub_path` (idlemerge.py lines 1334-1344)

```
match = re.match(r'\^?(/.*?)/?(?:@.*)?$', original_path)
if match:
    source = match.group(1) + '/'
else:
    source = original_path
if path.startswith(source):
    return path[len(source):]
return path
```
The regex consumes an optional leading `'^'`, then a non-greedy group
starting with `'/'`; the group is the shortest non-empty prefix whose
remainder matches `/?(?:@.*)?$`, i.e. the remainder is empty, a single
`'/'`, or starts with `'@'` or `"/@"`. -/

/-- Whether a remainder of the subject string can be matched by the
regex tail `/?(?:@.*)?$`. -/
def remOK : List Char → Bool
  | [] => true
  | '@' :: _ => true
  | ['/'] => true
  | '/' :: '@' :: _ => true
  | _ => false

/-- Non-greedy scan for `(/.*?)`: extends the group (accumulated in
reverse in `acc`) one character at a time until the remainder matches
the regex tail. -/
def scanCut (acc : List Char) : List Char → List Char
  | [] => acc.reverse
  | c :: rest => if remOK (c :: rest) then acc.reverse else scanCut (c :: acc) rest

/-- `re.match(r'\^?(/.*?)/?(?:@.*)?$', original_path)`: `none` when the
regex does not match, otherwise `some group(1)`. -/
def sourceGroup (original : List Char) : Option (List Char) :=
  let s := match original with
    | '^' :: t => t
    | t => t
  match s with
  | '/' :: rest => some (scanCut ['/'] rest)
  | _ => none

/-- `IdleMerge.get_source_sub_path(path, original_path)`. -/
def get_source_sub_path (path original_path : String) : String :=
  let source : List Char :=
    match sourceGroup original_path.toList with
    | some g => g ++ ['/']
    | none => original_path.toList
  if source.isPrefixOf path.toList then String.mk (path.toList.drop source.length)
  else path

/-! ### `revert_spurious_merges` (idlemerge.py lines 1346-1363)

```
no_revert = set(valid_entries)
for path_item in revision.paths:
    no_revert.add(self.get_source_sub_path(path_item.path, revision.original_branch))
status = self.svn_status()
to_revert = []
for entry in status.entries:
    if entry.item == 'unversionned' or entry.path in no_revert:
        continue
    to_revert.append(entry.path)
...
self.execute_svn_command(['revert'] + to_revert)
return no_revert
```
-/

/-- A `<path>` item of `svn log -v` as wrapped by `LogPath`. -/
structure LogPath where
  path : String
  kind : String
  action : String
deriving DecidableEq

/-- The `no_revert` set built by `revert_spurious_merges`: the given
valid entries plus every touched path translated through
`get_source_sub_path` with the revision's original branch. -/
def no_revert_set (revPaths : List LogPath) (originalBranch : String)
    (validEntries : List String) : Finset String :=
  validEntries.toFinset ∪
    (revPaths.map (fun p => get_source_sub_path p.path originalBranch)).toFinset

/-- The `to_revert` list of `revert_spurious_merges`: the paths of the
status entries that are neither `'unversionned'` nor in `no_revert`,
passed to `svn revert`. -/
def revert_spurious_to_revert (revPaths : List LogPath) (originalBranch : String)
    (validEntries : List String) (entries : List StatusEntry) : List String :=
  let nr := no_revert_set revPaths originalBranch validEntries
  (entries.filter
      (fun e => !(e.item == "unversionned" || decide (e.path ∈ nr)))).map
    (fun e => e.path)

/-! ### Concise-batch initial state (idlemerge.py line 1422)

`merged_paths = set(self.target)` — `set` applied to a string yields
the set of its characters (each a one-character string). -/

/-- The initial value of `merged_paths` in `merge_one_by_one_concise`. -/
def initial_merged_paths (target : String) : Finset String :=
  (target.toList.map (fun c => String.mk [c])).toFinset

/-! ### Revisions and the IDLE-DATA block
(idlemerge.py lines 560-562, 970-986, 1378-1401)

`Revision` attributes relevant to the commit-message builder.  `dateRaw`
is the `<date>` text of the log entry (the code turns it into a
`datetime` with `strptime('%Y-%m-%dT%H:%M:%S.%fZ')`), `fullMsg` the
`<msg>` text. -/

/-- The revision attributes used by `idle_merge_metacomment` and
`commit_log`. -/
structure RevInfo where
  number : Nat
  author : String
  dateRaw : String
  fullMsg : String
deriving DecidableEq

/-- The revision numbers of a list of revisions. -/
def numbersOf (l : List RevInfo) : List Nat :=
  l.map (fun r => r.number)

/-- Python `set(...)` on a collection of `Revision`s: deduplication by
revision number (`Revision.__hash__` and `__cmp__` both use only the
number), keeping the first occurrence. -/
def dedupByNumber : List RevInfo → List RevInfo
  | [] => []
  | r :: rest => r :: (dedupByNumber rest).filter (fun x => x.number != r.number)

/-- The sorted revision numbers underlying `revisions_as_string`
(lines 560-562): `sorted([int(revision) for revision in revisions if revision])`.
A `Revision` defines neither `__nonzero__` nor `__len__`, so
`if revision` is always true and the comprehension keeps every
element. -/
def sortedNumbers (revs : List RevInfo) : List Nat :=
  List.insertionSort (fun a b => a ≤ b) (numbersOf revs)

/-- `revisions_as_string(revisions, separator)`. -/
def revisions_as_string (revs : List RevInfo) (sep : String) : String :=
  String.intercalate sep ((sortedNumbers revs).map (fun n => toString n))

/-- Comparison of revisions, `Revision.__cmp__`: by number. -/
def revLE (a b : RevInfo) : Prop := a.number ≤ b.number

instance : DecidableRel revLE := fun a b => Nat.decLe a.number b.number

instance : IsTrans RevInfo revLE := ⟨fun _ _ _ h₁ h₂ => Nat.le_trans h₁ h₂⟩

instance : IsTotal RevInfo revLE := ⟨fun a b => Nat.le_total a.number b.number⟩

/-- Python `sorted` on a collection of `Revision`s (ordered by
`__cmp__`, i.e. by number). -/
def sortRevs (l : List RevInfo) : List RevInfo :=
  List.insertionSort revLE l

/-- `all_revisions = sorted(revisions.union(mergeinfo_revisions))` in
`idle_merge_metacomment`: the union is a set union keyed by revision
number. -/
def allRevisions (revSet mergeinfo : List RevInfo) : List RevInfo :=
  sortRevs (dedupByNumber (revSet ++ mergeinfo))

/-- A Python `datetime` as produced by
`datetime.strptime(date_string, '%Y-%m-%dT%H:%M:%S.%fZ')`. -/
structure PyDatetime where
  year : Nat
  month : Nat
  day : Nat
  hour : Nat
  minute : Nat
  second : Nat
  microsecond : Nat
deriving DecidableEq

/-- Left-pads the decimal representation of `n` with zeros to `width`
characters (the `%04d`/`%02d`/`%06d` renderings used by
`datetime.__str__`). -/
def padZ (width n : Nat) : String :=
  let s := toString n
  String.mk (List.replicate (width - s.length) '0') ++ s

/-- Splitting on a single separator character (the `str.split(sep)`
used implicitly by the `strptime` format directives). -/
def splitOnChar (c : Char) : List Char → List (List Char)
  | [] => [[]]
  | x :: xs =>
    let r := splitOnChar c xs
    if x = c then [] :: r
    else
      match r with
      | [] => [[x]]
      | h :: t => (x :: h) :: t

/-- Reads a non-empty all-digit character list as a decimal number. -/
def digitsToNat (l : List Char) : Option Nat :=
  match l with
  | [] => none
  | _ =>
    l.foldl
      (fun acc c =>
        match acc with
        | some a => if c.isDigit then some (a * 10 + (c.toNat - 48)) else none
        | none => none)
      (some 0)

/-- `%f` of `strptime`: the fractional-second digits are padded on the
right to six digits and read as microseconds. -/
def fracToMicro (frac : List Char) : Option Nat :=
  if frac.isEmpty ∨ 6 < frac.length then none
  else digitsToNat (frac ++ List.replicate (6 - frac.length) '0')

/-- Model of `datetime.strptime(date_string, '%Y-%m-%dT%H:%M:%S.%fZ')`
for the svn log `<date>` format (`strptime` raises on a mismatch, which
is modelled as `none`; numeric range validation is not needed for the
well-formed dates the claims use). -/
def strptime_svn (s : String) : Option PyDatetime :=
  match splitOnChar 'T' s.toList with
  | [date, time] =>
    match splitOnChar '-' date with
    | [ys, mos, ds] =>
      match splitOnChar ':' time with
      | [hs, mins, secfrac] =>
        match secfrac.reverse with
        | 'Z' :: revRest =>
          match splitOnChar '.' revRest.reverse with
          | [ss, fs] =>
            match digitsToNat ys, digitsToNat mos, digitsToNat ds, digitsToNat hs,
                digitsToNat mins, digitsToNat ss, fracToMicro fs with
            | some y, some mo, some d, some h, some mi, some sec, some us =>
              some ⟨y, mo, d, h, mi, sec, us⟩
            | _, _, _, _, _, _, _ => none
          | _ => none
        | _ => none
      | _ => none
    | _ => none
  | _ => none

/-- `str(datetime)`: `YYYY-MM-DD HH:MM:SS[.ffffff]`, the microseconds
being printed only when nonzero. -/
def str_datetime (d : PyDatetime) : String :=
  padZ 4 d.year ++ "-" ++ padZ 2 d.month ++ "-" ++ padZ 2 d.day ++ " " ++
  padZ 2 d.hour ++ ":" ++ padZ 2 d.minute ++ ":" ++ padZ 2 d.second ++
  (if d.microsecond = 0 then "" else "." ++ padZ 6 d.microsecond)

/-- `'%s' % revision.date` as it appears in the metacomment lines. -/
def dateString (r : RevInfo) : String :=
  match strptime_svn r.dateRaw with
  | some dt => str_datetime dt
  | none => ""

/-- One `r<n> | <author> | <date>` line of the IDLE-DATA block. -/
def revLine (r : RevInfo) : String :=
  "r" ++ toString r.number ++ " | " ++ r.author ++ " | " ++ dateString r

/-- `idle_merge_metacomment(revisions, mergeinfo_revisions)`
(lines 970-986).  `revisions` is turned into a set
(`set(revisions)` = `dedupByNumber`); `mergeinfo_revisions` is used as
passed.  Lines are joined with `'\n  '`. -/
def idle_merge_metacomment (revisions mergeinfo_revisions : List RevInfo) : String :=
  let revSet := dedupByNumber revisions
  String.intercalate "\n  " (
    ["-- IDLEMERGE DATA --"]
    ++ (if revSet.isEmpty then [] else
          ["REVISIONS=" ++ revisions_as_string revSet ","])
    ++ (if mergeinfo_revisions.isEmpty then [] else
          ["MERGEINFO_REVISIONS=" ++ revisions_as_string mergeinfo_revisions ","])
    ++ (allRevisions revSet mergeinfo_revisions).map revLine)

/-- `IdleMerge.single_revision_message(revision)` (lines 1378-1379):
`'[automerge %s@%s] %s' % (self.source, revision.number, revision.msg)`. -/
def single_revision_message (source : String) (r : RevInfo) : String :=
  "[automerge " ++ source ++ "@" ++ toString r.number ++ "] " ++
    Revision_msg r.fullMsg

/-- `IdleMerge.commit_log(revisions, mergeinfo_revisions)`
(lines 1381-1401).  `none` models `raise Error('No revision provided')`. -/
def commit_log (source target_url : String)
    (revisions mergeinfo_revisions : List RevInfo) : Option String :=
  if revisions = [] ∧ mergeinfo_revisions = [] then none
  else
    let message :=
      match revisions, mergeinfo_revisions with
      | [r], _ => single_revision_message source r
      | [], [m] => single_revision_message source m
      | [], _ :: _ :: _ => "[automerge " ++ source ++ "] Committing mergeinfo changes"
      | _, _ => "merge revisions " ++ revisions_as_string revisions ", " ++
          " from " ++ source ++ " to " ++ target_url
    some (message ++ "\n" ++ idle_merge_metacomment revisions mergeinfo_revisions)

/-! ### `merge_one_by_one_concise` (idlemerge.py lines 1403-1472)

The loop is driven by the working-copy classification after each
replay.  For each successive replay event `k` the oracle `env k` tells
whether the fresh status after replaying (and resolving and reverting
spurious merges) `status.has_conflict`, has real content changes
(`status.has_non_props_changes()`, together with the success of the
commit issued right away), or is metadata-only.  In the source the
whole pass is:

```
record_only_revisions = self.load_record_only_revisions()
if record_only_revisions:
    record_only_revisions = record_only_revisions.intersection(set(revisions))
merged_paths = set(self.target)
revisions_to_merge = revisions[:]
mergeinfo_revisions = set()
while revisions_to_merge:
    merged = []
    mergeinfo_revisions = set()
    for revision in revisions_to_merge:
        ... merge / resolve / revert spurious ...
        if status.has_conflict:
            raise Conflict(revision=revision,
                mergeinfos=mergeinfo_revisions.union(record_only_revisions), ...)
        if status.has_non_props_changes():
            merged = mergeinfo_revisions.copy()
            merged.add(revision)
            self.commit(['-m', commit_log])
            if not self.svn.return_code:
                mergeinfo_revisions = set()
            break
        mergeinfo_revisions.add(revision)
    if mergeinfo_revisions == set(revisions_to_merge):
        if commit_mergeinfo:
            merged = mergeinfo_revisions.copy()
            self.commit(['-m', commit_log])
            if not self.svn.return_code:
                mergeinfo_revisions = set()
            break
        else:
            self.save_record_only_revisions(
                mergeinfo_revisions.union(record_only_revisions))
            return None
    revisions_to_merge = [r for r in revisions_to_merge if r not in merged]
self.save_record_only_revisions(mergeinfo_revisions)
return None
```

On `Conflict`, `launch_merge` (lines 1522-1526) catches the exception
and calls `save_record_only_revisions(conflict.mergeinfos)`. -/

/-- Classification of the working copy after one replay, as branched on
by the concise loop; `real ok` also records whether the commit issued
right away exited with code 0. -/
inductive Outcome
  | conflict
  | real (commitOk : Bool)
  | metadata
deriving DecidableEq

/-- The replay events of a run: which revision was replayed with which
outcome, in order. -/
abbrev Trace := List (Nat × Outcome)

/-- Result of the inner `for revision in revisions_to_merge` loop. -/
inductive InnerResult
  /-- `raise Conflict(...)` at `rev` with the current `mergeinfo_revisions`. -/
  | raised (rev : Nat) (pending : Finset Nat) (k : Nat) (tr : Trace)
  /-- `break` after a real-content status at `rev`: `pending` is
  `mergeinfo_revisions` after the commit (cleared only on success) and
  `merged` the set computed before the commit. -/
  | broke (rev : Nat) (commitOk : Bool) (pending merged : Finset Nat)
      (k : Nat) (tr : Trace)
  /-- The loop ran out of revisions without a break. -/
  | completed (pending : Finset Nat) (k : Nat) (tr : Trace)
deriving DecidableEq

/-- The inner `for` loop of `merge_one_by_one_concise`. -/
def innerLoop (env : Nat → Outcome) :
    List Nat → Finset Nat → Nat → Trace → InnerResult
  | [], pending, k, tr => .completed pending k tr
  | r :: rest, pending, k, tr =>
    match env k with
    | .conflict => .raised r pending (k + 1) (tr ++ [(r, .conflict)])
    | .real ok =>
      .broke r ok (if ok then ∅ else pending) (insert r pending) (k + 1)
        (tr ++ [(r, .real ok)])
    | .metadata => innerLoop env rest (insert r pending) (k + 1)
        (tr ++ [(r, .metadata)])

/-- Result of a whole concise pass, together with the set passed to
`save_record_only_revisions` in each exit path. -/
inductive ConciseResult
  /-- `Conflict` raised at `rev`; `saved` is `conflict.mergeinfos =
  pending ∪ record_only`, which `launch_merge` persists. -/
  | conflictRaised (rev : Nat) (pending saved : Finset Nat) (tr : Trace)
  /-- The pure-mergeinfo early return (no `commit_mergeinfo`):
  persists `pending ∪ record_only`. -/
  | skipped (saved : Finset Nat) (tr : Trace)
  /-- Normal termination of the `while`: persists the final
  `mergeinfo_revisions`. -/
  | finished (saved : Finset Nat) (tr : Trace)
  /-- Fuel exhausted (the corresponding Python control flow would not
  terminate; unreachable from `merge_one_by_one_concise`). -/
  | outOfFuel
deriving DecidableEq

/-- The `while revisions_to_merge` loop.  `pc` is the value of
`mergeinfo_revisions` carried over from the previous iteration (read by
the final `save_record_only_revisions` when the queue empties); the
variable is reset to `∅` at the top of each iteration before the inner
loop runs.  When the inner loop completes without a break, `merged` is
the empty list, so the queue filter keeps the queue unchanged. -/
def conciseWhile (env : Nat → Outcome) (miCommitOk cm : Bool) (ro : Finset Nat) :
    Nat → List Nat → Finset Nat → Nat → Trace → ConciseResult
  | 0, _, _, _, _ => .outOfFuel
  | _ + 1, [], pc, _, tr => .finished pc tr
  | fuel + 1, r :: rest, _, k, tr =>
    match innerLoop env (r :: rest) ∅ k tr with
    | .raised rev pending _ tr' => .conflictRaised rev pending (pending ∪ ro) tr'
    | .broke _ _ pending merged k' tr' =>
      if pending = (r :: rest).toFinset then
        if cm then .finished (if miCommitOk then ∅ else pending) tr'
        else .skipped (pending ∪ ro) tr'
      else
        conciseWhile env miCommitOk cm ro fuel
          ((r :: rest).filter (fun x => decide (x ∉ merged))) pending k' tr'
    | .completed pending k' tr' =>
      if pending = (r :: rest).toFinset then
        if cm then .finished (if miCommitOk then ∅ else pending) tr'
        else .skipped (pending ∪ ro) tr'
      else
        conciseWhile env miCommitOk cm ro fuel (r :: rest) pending k' tr'

/-- `IdleMerge.merge_one_by_one_concise(revisions, commit_mergeinfo)`:
`loaded` is the set read from the record-only file, intersected (when
non-empty) with the eligible revisions; the queue starts as the whole
eligible list and `mergeinfo_revisions` as `∅`.  `revisions.length + 1`
units of fuel are enough for every reachable control path, because each
`while` iteration that loops again strictly shrinks the queue. -/
def merge_one_by_one_concise (env : Nat → Outcome) (miCommitOk : Bool)
    (revisions : List Nat) (cm : Bool) (loaded : Finset Nat) : ConciseResult :=
  let ro := if loaded = ∅ then loaded else loaded ∩ revisions.toFinset
  conciseWhile env miCommitOk cm ro (revisions.length + 1) revisions ∅ 0 []

/-! ## Theorems -/

/-- Helper: `at_domain domain` always contains `'@'` (it either starts
with `'@'` by the taken branch, or got `'@'` prepended). -/
theorem mem_at_domain (d : List Char) : '@' ∈ at_domain d := by
  unfold at_domain
  by_cases h : d.head? = some '@'
  · rw [if_pos h]
    cases d with
    | nil => simp at h
    | cons c t =>
      have hc : c = '@' := by simpa using h
      simp [hc]
  · rw [if_neg h]
    exact List.mem_cons_self _ _

/-- Claim C10: for every email string `e` and every domain string `d`,
`add_email_domain (add_email_domain e d) d = add_email_domain e d`;
the function is idempotent in its first argument for a fixed domain. -/
theorem add_email_domain_idempotent (e d : List Char) :
    add_email_domain (add_email_domain e d) d = add_email_domain e d := by
  by_cases he : add_email_domain e d = e
  · rw [he]
    exact he
  · have hd : d ≠ [] := fun h => he (by simp [add_email_domain, h])
    have hat : '@' ∉ e := fun h => he (by simp [add_email_domain, hd, h])
    have hs1 : ¬((at_domain d).isSuffixOf e = true) := fun h =>
      he (by simp [add_email_domain, hd, hat, h])
    have hs2 : ¬(((at_domain d) ++ ['>']).isSuffixOf e = true) := fun h =>
      he (by simp [add_email_domain, hd, hat, hs1, h])
    have hres : add_email_domain e d = e ++ at_domain d := by
      simp [add_email_domain, hd, hat, hs1, hs2]
    have hmem : '@' ∈ e ++ at_domain d :=
      List.mem_append.mpr (Or.inr (mem_at_domain d))
    rw [hres]
    simp [add_email_domain, hd, hmem]

/-- Claim C3 (code bug): on the log message
`"hello\n-- IDLEMERGE DATA --\n  REVISIONS=1"` the parser stores
`msg = "hello"` but `idle_data = "\n"`: `re.split` with a capturing
group returns `[before, captured_group, after]` and the code takes
index 1, the captured separator, instead of index 2, so `idle_data`
is never the text after the marker line. -/
theorem idle_data_is_separator_not_block :
    Revision_msg "hello\n-- IDLEMERGE DATA --\n  REVISIONS=1" = "hello"
    ∧ Revision_idle_data "hello\n-- IDLEMERGE DATA --\n  REVISIONS=1" = "\n"
    ∧ ("\n" : String) ≠ "  REVISIONS=1" := by decide

/-- Claim C1 (code bug): `Status.unversionned` filters with
`not entry.is_unversionned`, so on a status holding one entry with item
state `'unversionned'` (path `"a"`) and one with item state `'normal'`
(path `"b"`), `revert_pristine` enumerates and removes exactly the
versioned entry `"b"` — the complement of what the claim states. -/
theorem status_unversionned_enumerates_versioned :
    (revert_pristine
      [⟨"a", "unversionned", "none", false⟩, ⟨"b", "normal", "none", false⟩]
      1).deleted = ["b"]
    ∧ (revert_pristine
      [⟨"a", "unversionned", "none", false⟩, ⟨"b", "normal", "none", false⟩]
      1).deleted ≠ ["a"] := by decide

/-- Claim C2 (code bug): `revert_pristine` raises
`Error('Failed to reset workspace !')` exactly when the second
`svn update` exits with code 0 (success), and does not raise on a
nonzero exit code — the inverse of the claim (the condition reads
`if self.svn_update() == 0` instead of `!= 0`). -/
theorem revert_pristine_raises_iff_update_succeeds :
    (revert_pristine [⟨"b", "normal", "none", false⟩] 0).raised = true
    ∧ (revert_pristine [⟨"b", "normal", "none", false⟩] 1).raised = false := by
  decide

/-- Claim C7 (code bug): `merged_paths = set(self.target)` applies
`set` to the target string, producing the set of its one-character
substrings; for the target path `"wc"` this is `{"w", "c"}`, not the
singleton `{"wc"}` the claim states. -/
theorem initial_merged_paths_charset :
    initial_merged_paths "wc" = ({"w", "c"} : Finset String)
    ∧ initial_merged_paths "wc" ≠ ({"wc"} : Finset String) := by decide

/-- Claim C6: for every replayed revision (its touched paths and
original branch) and every given legitimate set, the spurious-change
reverter reverts exactly the status entries whose path is neither in
the legitimate set (`no_revert`: the valid entries unioned with the
touched paths translated by `get_source_sub_path` on the effective
source branch) nor unversioned; in particular no translated touched
path of the revision is ever reverted. -/
theorem revert_spurious_exact (revPaths : List LogPath) (ob : String)
    (valid : List String) (entries : List StatusEntry) :
    (∀ p, p ∈ revert_spurious_to_revert revPaths ob valid entries ↔
      ∃ e, e ∈ entries ∧ e.path = p ∧ e.item ≠ "unversionned" ∧
        p ∉ no_revert_set revPaths ob valid)
    ∧ ∀ lp ∈ revPaths,
        get_source_sub_path lp.path ob ∉
          revert_spurious_to_revert revPaths ob valid entries := by
  have hmem : ∀ p, p ∈ revert_spurious_to_revert revPaths ob valid entries ↔
      ∃ e, e ∈ entries ∧ e.path = p ∧ e.item ≠ "unversionned" ∧
        p ∉ no_revert_set revPaths ob valid := by
    intro p
    simp only [revert_spurious_to_revert, List.mem_map, List.mem_filter,
      Bool.not_eq_true', Bool.or_eq_false_iff, beq_eq_false_iff_ne,
      decide_eq_false_iff_not]
    constructor
    · rintro ⟨e, ⟨hmem, hu, hn⟩, rfl⟩
      exact ⟨e, hmem, rfl, hu, hn⟩
    · rintro ⟨e, hmem, rfl, hu, hn⟩
      exact ⟨e, ⟨hmem, hu, hn⟩, rfl⟩
  refine ⟨hmem, ?_⟩
  intro lp hlp hin
  obtain ⟨e, -, -, -, hnot⟩ := (hmem _).1 hin
  apply hnot
  unfold no_revert_set
  exact Finset.mem_union_right _
    (List.mem_toFinset.mpr (List.mem_map.mpr ⟨lp, hlp, rfl⟩))

/-- Witness for C6: on a revision touching `/foo/stable/a` replayed
from `^/foo/stable`, with valid entries `["v"]` and status entries for
`a` (touched, modified), `b` (untouched, modified) and `u`
(unversioned), the entry `b` is reverted and the translated touched
path `a` is not. -/
theorem revert_spurious_exact_witness :
    ((⟨"/foo/stable/a", "file", "M"⟩ : LogPath) ∈
      [(⟨"/foo/stable/a", "file", "M"⟩ : LogPath)])
    ∧ ("b" ∈ revert_spurious_to_revert [⟨"/foo/stable/a", "file", "M"⟩]
        "^/foo/stable" ["v"]
        [⟨"a", "modified", "none", false⟩, ⟨"b", "modified", "none", false⟩,
          ⟨"u", "unversionned", "none", false⟩])
    ∧ get_source_sub_path "/foo/stable/a" "^/foo/stable" ∉
        revert_spurious_to_revert [⟨"/foo/stable/a", "file", "M"⟩]
          "^/foo/stable" ["v"]
          [⟨"a", "modified", "none", false⟩, ⟨"b", "modified", "none", false⟩,
            ⟨"u", "unversionned", "none", false⟩] :=
  ⟨by decide, by decide,
    (revert_spurious_exact [⟨"/foo/stable/a", "file", "M"⟩] "^/foo/stable" ["v"]
      [⟨"a", "modified", "none", false⟩, ⟨"b", "modified", "none", false⟩,
        ⟨"u", "unversionned", "none", false⟩]).2
      ⟨"/foo/stable/a", "file", "M"⟩ (by decide)⟩

/-- Helper: deduplication by number does not change the set of
revision numbers. -/
theorem mem_numbersOf_dedupByNumber (l : List RevInfo) (n : Nat) :
    n ∈ numbersOf (dedupByNumber l) ↔ n ∈ numbersOf l := by
  induction l with
  | nil => exact Iff.rfl
  | cons r rest ih =>
    simp only [dedupByNumber, numbersOf, List.map_cons, List.mem_cons]
    constructor
    · rintro (h | h)
      · exact Or.inl h
      · obtain ⟨x, hx, rfl⟩ := List.mem_map.mp h
        rw [List.mem_filter] at hx
        right
        have hmm : x.number ∈ numbersOf (dedupByNumber rest) :=
          List.mem_map.mpr ⟨x, hx.1, rfl⟩
        simpa [numbersOf] using ih.1 hmm
    · rintro (h | h)
      · exact Or.inl h
      · by_cases he : n = r.number
        · exact Or.inl he
        · right
          have hmm : n ∈ numbersOf (dedupByNumber rest) :=
            ih.2 (by simpa [numbersOf] using h)
          obtain ⟨x, hx, rfl⟩ := List.mem_map.mp hmm
          exact List.mem_map.mpr ⟨x, List.mem_filter.mpr ⟨hx, by simpa using he⟩, rfl⟩

/-- Helper: after deduplication by number, the revision numbers are
pairwise distinct. -/
theorem nodup_numbersOf_dedupByNumber (l : List RevInfo) :
    (numbersOf (dedupByNumber l)).Nodup := by
  induction l with
  | nil => simp [dedupByNumber, numbersOf]
  | cons r rest ih =>
    simp only [dedupByNumber, numbersOf, List.map_cons]
    rw [List.nodup_cons]
    constructor
    · intro hmem
      obtain ⟨x, hx, hxn⟩ := List.mem_map.mp hmem
      rw [List.mem_filter] at hx
      exact (by simpa using hx.2 : x.number ≠ r.number) hxn
    · exact List.Nodup.sublist
        (List.Sublist.map _ (List.filter_sublist _)) ih

/-- Helper: a list of naturals that is sorted by `≤` and has no
duplicates is strictly ascending. -/
theorem pairwise_lt_of_le_nodup {l : List Nat}
    (hs : l.Pairwise (fun a b => a ≤ b)) (hn : l.Nodup) :
    l.Pairwise (fun a b => a < b) :=
  (hs.and hn).imp (fun h => lt_of_le_of_ne h.1 h.2)

/-- Claim C8: for disjoint finite revision sets `R` (content) and `M`
(metadata-only), not both empty, the IDLE-DATA block built by
`idle_merge_metacomment` lists each revision number in at most one of
the `REVISIONS=` and `MERGEINFO_REVISIONS=` lists, both lists are
strictly ascending, and the `r<n>` lines enumerate exactly the union
`R ∪ M` in strictly ascending order.  `sortedNumbers (dedupByNumber R)`
and `sortedNumbers M` are the number lists rendered into the two
headers, and `allRevisions (dedupByNumber R) M` is the list rendered
into the `r<n>` lines. -/
theorem metacomment_block_invariants (R M : List RevInfo)
    (hR : (numbersOf R).Nodup) (hM : (numbersOf M).Nodup)
    (hdisj : ∀ n ∈ numbersOf R, n ∉ numbersOf M)
    (hne : ¬(R = [] ∧ M = [])) :
    (∀ n ∈ sortedNumbers (dedupByNumber R), n ∉ sortedNumbers M)
    ∧ (sortedNumbers (dedupByNumber R)).Pairwise (fun a b => a < b)
    ∧ (sortedNumbers M).Pairwise (fun a b => a < b)
    ∧ (numbersOf (allRevisions (dedupByNumber R) M)).Pairwise (fun a b => a < b)
    ∧ (numbersOf (allRevisions (dedupByNumber R) M)).toFinset
        = (numbersOf R).toFinset ∪ (numbersOf M).toFinset := by
  have hmemR : ∀ n, n ∈ sortedNumbers (dedupByNumber R) ↔ n ∈ numbersOf R := by
    intro n
    rw [sortedNumbers, List.mem_insertionSort]
    exact mem_numbersOf_dedupByNumber R n
  have hmemM : ∀ n, n ∈ sortedNumbers M ↔ n ∈ numbersOf M := by
    intro n
    rw [sortedNumbers, List.mem_insertionSort]
  have hD : ∀ n, n ∈ numbersOf (dedupByNumber (dedupByNumber R ++ M)) ↔
      n ∈ numbersOf R ∨ n ∈ numbersOf M := by
    intro n
    rw [mem_numbersOf_dedupByNumber]
    simp only [numbersOf, List.map_append, List.mem_append]
    rw [show (List.map (fun r => r.number) (dedupByNumber R) : List Nat)
        = numbersOf (dedupByNumber R) from rfl,
      show (List.map (fun r => r.number) R : List Nat) = numbersOf R from rfl]
    rw [mem_numbersOf_dedupByNumber]
  have hAllPerm : List.Perm (numbersOf (allRevisions (dedupByNumber R) M))
      (numbersOf (dedupByNumber (dedupByNumber R ++ M))) :=
    List.Perm.map _ (List.perm_insertionSort revLE _)
  refine ⟨?_, ?_, ?_, ?_, ?_⟩
  · intro n hn hm
    exact hdisj n ((hmemR n).1 hn) ((hmemM n).1 hm)
  · exact pairwise_lt_of_le_nodup (List.sorted_insertionSort _ _)
      (((List.perm_insertionSort _ _).nodup_iff).mpr
        (nodup_numbersOf_dedupByNumber R))
  · exact pairwise_lt_of_le_nodup (List.sorted_insertionSort _ _)
      (((List.perm_insertionSort _ _).nodup_iff).mpr hM)
  · have hsorted : (allRevisions (dedupByNumber R) M).Pairwise revLE :=
      List.sorted_insertionSort revLE _
    have hle : (numbersOf (allRevisions (dedupByNumber R) M)).Pairwise
        (fun a b => a ≤ b) :=
      List.Pairwise.map _ (fun _ _ h => h) hsorted
    have hnd : (numbersOf (allRevisions (dedupByNumber R) M)).Nodup :=
      hAllPerm.nodup_iff.mpr (nodup_numbersOf_dedupByNumber _)
    exact pairwise_lt_of_le_nodup hle hnd
  · ext n
    simp only [List.mem_toFinset, Finset.mem_union]
    rw [hAllPerm.mem_iff]
    exact hD n

/-- Witness for C8 at `R = [revision 1 by foo]`,
`M = [revision 2 by bar]`. -/
theorem metacomment_block_invariants_witness :
    ((numbersOf [(⟨1, "foo", "", ""⟩ : RevInfo)]).Nodup
      ∧ (numbersOf [(⟨2, "bar", "", ""⟩ : RevInfo)]).Nodup
      ∧ (∀ n ∈ numbersOf [(⟨1, "foo", "", ""⟩ : RevInfo)],
          n ∉ numbersOf [(⟨2, "bar", "", ""⟩ : RevInfo)])
      ∧ ¬(([(⟨1, "foo", "", ""⟩ : RevInfo)] : List RevInfo) = []
          ∧ ([(⟨2, "bar", "", ""⟩ : RevInfo)] : List RevInfo) = []))
    ∧ (numbersOf (allRevisions (dedupByNumber [(⟨1, "foo", "", ""⟩ : RevInfo)])
          [(⟨2, "bar", "", ""⟩ : RevInfo)])).toFinset
        = (numbersOf [(⟨1, "foo", "", ""⟩ : RevInfo)]).toFinset
          ∪ (numbersOf [(⟨2, "bar", "", ""⟩ : RevInfo)]).toFinset :=
  ⟨⟨by decide, by decide, by decide, by decide⟩,
    (metacomment_block_invariants [⟨1, "foo", "", ""⟩] [⟨2, "bar", "", ""⟩]
      (by decide) (by decide) (by decide) (by decide)).2.2.2.2⟩

/-- Claim C9: with source `^/foo/stable` and the single content
revision 1 by `foo` at `2011-01-01T01:01:01.100000Z` with message
`log message for revision 1` and no metadata revisions, `commit_log`
returns exactly the expected commit message. -/
theorem commit_log_single_content_revision :
    commit_log "^/foo/stable" "^/foo/trunk"
      [⟨1, "foo", "2011-01-01T01:01:01.100000Z", "log message for revision 1"⟩]
      []
    = some ("[automerge ^/foo/stable@1] log message for revision 1\n" ++
        "-- IDLEMERGE DATA --\n  REVISIONS=1\n" ++
        "  r1 | foo | 2011-01-01 01:01:01.100000") := by decide

/-- Helper: whenever the concise `while` loop ends by raising
`Conflict`, the saved set (`conflict.mergeinfos`, persisted by
`launch_merge`) is the pending metadata set at the raise unioned with
the `record_only_revisions` value the loop was started with. -/
theorem conciseWhile_conflict_saved (env : Nat → Outcome) (miOk cm : Bool)
    (ro : Finset Nat) :
    ∀ (fuel : Nat) (rtm : List Nat) (pc : Finset Nat) (k : Nat) (tr : Trace)
      (rev : Nat) (pending saved : Finset Nat) (tr' : Trace),
      conciseWhile env miOk cm ro fuel rtm pc k tr =
        ConciseResult.conflictRaised rev pending saved tr' →
      saved = pending ∪ ro := by
  intro fuel
  induction fuel with
  | zero =>
    intro rtm pc k tr rev pending saved tr' h
    simp [conciseWhile] at h
  | succ n ih =>
    intro rtm pc k tr rev pending saved tr' h
    match rtm with
    | [] => simp [conciseWhile] at h
    | r :: rest =>
      cases hin : innerLoop env (r :: rest) ∅ k tr with
      | raised a b c d =>
        simp only [conciseWhile, hin, ConciseResult.conflictRaised.injEq] at h
        obtain ⟨-, h2, h3, -⟩ := h
        rw [← h3, h2]
      | broke a ok pending2 merged k2 tr2 =>
        simp only [conciseWhile, hin] at h
        by_cases h1 : pending2 = (r :: rest).toFinset
        · rw [if_pos h1] at h
          by_cases h2 : cm
          · rw [if_pos h2] at h
            cases h
          · rw [if_neg h2] at h
            cases h
        · rw [if_neg h1] at h
          exact ih _ _ _ _ _ _ _ _ h
      | completed pending2 k2 tr2 =>
        simp only [conciseWhile, hin] at h
        by_cases h1 : pending2 = (r :: rest).toFinset
        · rw [if_pos h1] at h
          by_cases h2 : cm
          · rw [if_pos h2] at h
            cases h
          · rw [if_neg h2] at h
            cases h
        · rw [if_neg h1] at h
          exact ih _ _ _ _ _ _ _ _ h

/-- Claim C4 counterexample: with the persisted record-only set `{5}`,
eligible revisions `[1]` and a conflict raised at revision 1 with an
empty pending set, the set written back to the record-only file is `∅`,
not `pending ∪ previously_persisted = {5}`: the in-flight record-only
revision 5 is dropped because it is first intersected with the eligible
list. -/
theorem conflict_saved_set_counterexample :
    merge_one_by_one_concise (fun _ => Outcome.conflict) false [1] false {5}
      = ConciseResult.conflictRaised 1 ∅ ∅ [(1, Outcome.conflict)]
    ∧ (∅ : Finset Nat) ≠ (∅ : Finset Nat) ∪ ({5} : Finset Nat) := by decide

/-- Claim C4 (amended): when a conflict is raised during concise-mode
batching, the record-only file is written back with exactly the union
of the current pending metadata-only set and the intersection of the
previously persisted record-only set with the eligible revision
list. -/
theorem conflict_saved_set_eq (env : Nat → Outcome) (miOk : Bool)
    (revisions : List Nat) (cm : Bool) (loaded : Finset Nat)
    (rev : Nat) (pending saved : Finset Nat) (tr : Trace)
    (h : merge_one_by_one_concise env miOk revisions cm loaded =
      ConciseResult.conflictRaised rev pending saved tr) :
    saved = pending ∪ (loaded ∩ revisions.toFinset) := by
  simp only [merge_one_by_one_concise] at h
  have hs := conciseWhile_conflict_saved env miOk cm _ _ _ _ _ _ _ _ _ _ h
  by_cases hl : loaded = ∅
  · rw [if_pos hl] at hs
    rw [hs, hl]
    simp
  · rw [if_neg hl] at hs
    exact hs

/-- Witness for C4 at the run of `conflict_saved_set_counterexample`'s
input: the theorem's hypothesis holds there and yields
`∅ = ∅ ∪ ({5} ∩ {1})`. -/
theorem conflict_saved_set_eq_witness :
    (merge_one_by_one_concise (fun _ => Outcome.conflict) false [1] false {5}
      = ConciseResult.conflictRaised 1 ∅ ∅ [(1, Outcome.conflict)])
    ∧ (∅ : Finset Nat) = ∅ ∪ ({5} ∩ ([1] : List Nat).toFinset) :=
  ⟨by decide,
    conflict_saved_set_eq (fun _ => Outcome.conflict) false [1] false {5}
      1 ∅ ∅ [(1, Outcome.conflict)] (by decide)⟩

/-- Claim C5 counterexample: eligible revisions `[1, 2]`, revision 1
metadata-only, revision 2 with real content changes whose commit then
fails (nonzero exit).  The whole run terminates right away with the
final save `{1}`: the replay trace shows revision 2 was replayed
exactly once, so neither revision 2 nor the pending metadata revision 1
is carried into a next batch iteration for retry (the oracle would
have classified any further replay, but none happens). -/
theorem commit_failure_no_retry_counterexample :
    merge_one_by_one_concise
      (fun k => if k = 0 then Outcome.metadata else Outcome.real false)
      false [1, 2] false ∅
    = ConciseResult.finished {1}
        [(1, Outcome.metadata), (2, Outcome.real false)] := by decide

/-- Claim C5 (amended): when the commit after a real-content status
fails (`commitOk = false`), the pending metadata set is indeed not
cleared at that point (it is returned unchanged in `pending`), but
`merged` — computed before the commit — equals
`insert rev pending`, so the committed-for revision and every pending
metadata revision are removed from the queue for the next iteration
(`revisions_to_merge = [r for r in revisions_to_merge if r not in
merged]`) instead of being retried; the pending set itself is reset to
`∅` at the top of the next `while` iteration. -/
theorem commit_failure_removes_from_queue (env : Nat → Outcome) :
    ∀ (q : List Nat) (p0 : Finset Nat) (k : Nat) (tr : Trace)
      (r : Nat) (pending merged : Finset Nat) (k' : Nat) (tr' : Trace),
      innerLoop env q p0 k tr =
        InnerResult.broke r false pending merged k' tr' →
      merged = insert r pending ∧ p0 ⊆ pending ∧
        ∀ x ∈ q.filter (fun y => decide (y ∉ merged)), x ≠ r ∧ x ∉ pending := by
  intro q
  induction q with
  | nil =>
    intro p0 k tr r pending merged k' tr' h
    simp [innerLoop] at h
  | cons a rest ih =>
    intro p0 k tr r pending merged k' tr' h
    cases he : env k with
    | conflict => simp [innerLoop, he] at h
    | real ok =>
      simp only [innerLoop, he, InnerResult.broke.injEq] at h
      obtain ⟨rfl, rfl, hp, hm, -, -⟩ := h
      simp only [Bool.false_eq_true, if_false] at hp
      subst hp
      subst hm
      refine ⟨rfl, Finset.Subset.refl _, ?_⟩
      intro x hx
      rw [List.mem_filter] at hx
      have hxm := of_decide_eq_true hx.2
      constructor
      · intro hxr
        exact hxm (by rw [hxr]; exact Finset.mem_insert_self _ _)
      · intro hxp
        exact hxm (Finset.mem_insert_of_mem hxp)
    | metadata =>
      simp only [innerLoop, he] at h
      obtain ⟨hm, hsub, hfilter⟩ := ih _ _ _ _ _ _ _ _ h
      have hsub' : p0 ⊆ pending := fun x hx => hsub (Finset.mem_insert_of_mem hx)
      have haM : a ∈ merged := by
        rw [hm]
        exact Finset.mem_insert_of_mem (hsub (Finset.mem_insert_self a p0))
      have hcond : decide (a ∉ merged) = false :=
        decide_eq_false_iff_not.mpr (not_not_intro haM)
      refine ⟨hm, hsub', ?_⟩
      intro x hx
      simp only [List.filter_cons, hcond, Bool.false_eq_true, if_false] at hx
      exact hfilter x hx

/-- Witness for C5's amended theorem at a one-revision queue whose
replay reports real changes and a failing commit. -/
theorem commit_failure_removes_from_queue_witness :
    (innerLoop (fun _ => Outcome.real false) [1] ∅ 0 []
      = InnerResult.broke 1 false ∅ {1} 1 [(1, Outcome.real false)])
    ∧ ({1} : Finset Nat) = insert 1 (∅ : Finset Nat)
    ∧ (∅ : Finset Nat) ⊆ ∅
    ∧ ∀ x ∈ ([1] : List Nat).filter (fun y => decide (y ∉ ({1} : Finset Nat))),
        x ≠ 1 ∧ x ∉ (∅ : Finset Nat) :=
  ⟨by decide,
    commit_failure_removes_from_queue (fun _ => Outcome.real false)
      [1] ∅ 0 [] 1 ∅ {1} 1 [(1, Outcome.real false)] (by decide)⟩

end IdleMerge
